import Mathlib

/-!
Verification of the cache subsystem and companion utilities of the
monorepo-template repository, via a shallow embedding of the relevant
TypeScript sources:

* `vendor/cache/src/promise.ts` — `PromiseCache<T>`
* `vendor/cache/src/redis-client.ts` — `reconnectStrategy`, `redisSetKv`,
  `withRedis`, `RedisCacheManager`
* `vendor/common/src/utils/runtime.ts` — `executeWithConcurrency`, `batchProcess`
* `vendor/common/src/utils/random.ts` — `randomString`

JavaScript's single-threaded run-to-completion semantics let us model each
synchronous section of an async method as one atomic step; the points where
the code awaits are the only interleaving points, and are modelled as
separate events.  Machine numbers are modelled as `Int` (all the arithmetic
involved is exact integer arithmetic, far from any overflow of JS doubles).
-/

/-! ## PromiseCache (vendor/cache/src/promise.ts)

State of one `PromiseCache<T>` instance.  A stored promise object is
identified by a numeric id (`nextId` is the id the next created promise will
receive); `invocations` counts how many times a generator has been invoked.
-/

structure PCState where
  cache : Option Nat
  expirationTime : Option Int
  invocations : Nat
  nextId : Nat
deriving Repr, DecidableEq

def PCState.initial : PCState :=
  { cache := none, expirationTime := none, invocations := 0, nextId := 0 }

/-- JS truthiness of `this.expirationTime` (a `number | null` field):
falsy exactly when it is `null` or the number `0`. -/
def expTimeFalsy : Option Int → Bool
  | none => true
  | some e => e == 0

/-- The guard of `PromiseCache.get` (promise.ts lines 12–16):
`this.cache && (!this.expirationTime || (this.expirationTime && now < this.expirationTime))`. -/
def PromiseCache.hitCheck (now : Int) (s : PCState) : Bool :=
  s.cache.isSome &&
    (expTimeFalsy s.expirationTime ||
      (!expTimeFalsy s.expirationTime && decide (now < s.expirationTime.getD 0)))

/-- The synchronous part of `PromiseCache.get` (promise.ts lines 9–33): if the
guard holds, return the stored promise unchanged; otherwise start a new
generation — the generator is invoked and the freshly created promise is
stored immediately (the stale `expirationTime` is NOT reset here, exactly as
in the source).  Returns the promise handed to the caller and the new state. -/
def PromiseCache.getStep (now : Int) (s : PCState) : Nat × PCState :=
  if PromiseCache.hitCheck now s then
    (s.cache.getD s.nextId, s)
  else
    (s.nextId,
      { s with
        cache := some s.nextId
        invocations := s.invocations + 1
        nextId := s.nextId + 1 })

/-- `PromiseCache.clear` (promise.ts lines 35–38). -/
def PromiseCache.clearState (s : PCState) : PCState :=
  { s with cache := none, expirationTime := none }

/-- Successful settlement of the in-flight generation at time `t`
(promise.ts lines 22–25): `expirationTime` becomes `t + maxAge`, and
`setTimeout(() => this.clear(), this.maxAge)` schedules a clear whose
earliest firing time is `t + max maxAge 0` (the runtime clamps negative
delays to zero).  Returns the new state and that scheduled deadline. -/
def PromiseCache.settleOk (maxAge t : Int) (s : PCState) : PCState × Int :=
  ({ s with expirationTime := some (t + maxAge) }, t + max maxAge 0)

/-- Settlement of the wrapped generation (the async IIFE of promise.ts lines
20–30) at time `t`: on success record the expiration, on failure run
`this.clear()` and re-throw the very same error object. -/
def PromiseCache.generationResult {ε α : Type} (maxAge t : Int) (s : PCState)
    (out : Except ε α) : PCState × Except ε α :=
  match out with
  | Except.ok v => ((PromiseCache.settleOk maxAge t s).1, Except.ok v)
  | Except.error e => (PromiseCache.clearState s, Except.error e)

/-- Events of a `PromiseCache` trace: a `get` call at time `now`, or the
successful completion of the in-flight generation at time `t`. -/
inductive PCEvent where
  | get (now : Int)
  | completeOk (t : Int)
deriving Repr, DecidableEq

/-- Run a trace of events, collecting the promise returned by each `get`. -/
def PromiseCache.run (maxAge : Int) (s : PCState) : List PCEvent → PCState × List Nat
  | [] => (s, [])
  | PCEvent.get now :: rest =>
      let r := PromiseCache.getStep now s
      let r2 := PromiseCache.run maxAge r.2 rest
      (r2.1, r.1 :: r2.2)
  | PCEvent.completeOk t :: rest =>
      PromiseCache.run maxAge (PromiseCache.settleOk maxAge t s).1 rest

/-- A `get` at time `now` finds the cached promise not yet expired: the
generation is still pending (`expirationTime` unset) or the current time is
before the stored expiration time. -/
def PromiseCache.freshAt (now : Int) (s : PCState) : Bool :=
  match s.expirationTime with
  | none => true
  | some e => decide (now < e)

/-- A trace contains no expiry: every `get` happens while the cached promise
(if any) is pending or before its stored expiration time, and no scheduled
clear has fired (the earliest scheduled clear fires no earlier than the
expiration time, so the same condition rules it out). -/
def PromiseCache.noExpiry (maxAge : Int) (s : PCState) : List PCEvent → Bool
  | [] => true
  | PCEvent.get now :: rest =>
      PromiseCache.freshAt now s &&
      PromiseCache.noExpiry maxAge (PromiseCache.getStep now s).2 rest
  | PCEvent.completeOk t :: rest =>
      PromiseCache.noExpiry maxAge (PromiseCache.settleOk maxAge t s).1 rest

theorem PromiseCache.hitCheck_of_fresh (now : Int) (s : PCState) (p : Nat)
    (hc : s.cache = some p) (hf : PromiseCache.freshAt now s = true) :
    PromiseCache.hitCheck now s = true := by
  unfold PromiseCache.freshAt at hf
  unfold PromiseCache.hitCheck
  rcases he : s.expirationTime with _ | e
  · simp [hc, he, expTimeFalsy]
  · rw [he] at hf
    simp only [decide_eq_true_eq] at hf
    by_cases h0 : e = 0
    · simp [hc, he, expTimeFalsy, h0]
    · simp [hc, he, expTimeFalsy, h0, hf]

theorem PromiseCache.getStep_of_fresh (now : Int) (s : PCState) (p : Nat)
    (hc : s.cache = some p) (hf : PromiseCache.freshAt now s = true) :
    PromiseCache.getStep now s = (p, s) := by
  unfold PromiseCache.getStep
  rw [PromiseCache.hitCheck_of_fresh now s p hc hf]
  simp [hc]

theorem PromiseCache.run_cached (maxAge : Int) :
    ∀ (events : List PCEvent) (s : PCState) (p : Nat),
      s.cache = some p → PromiseCache.noExpiry maxAge s events = true →
      (PromiseCache.run maxAge s events).1.invocations = s.invocations ∧
      ∀ q ∈ (PromiseCache.run maxAge s events).2, q = p := by
  intro events
  induction events with
  | nil => intro s p _ _; exact ⟨rfl, by simp [PromiseCache.run]⟩
  | cons ev rest ih =>
    intro s p hc hne
    cases ev with
    | get now =>
      unfold PromiseCache.noExpiry at hne
      rw [Bool.and_eq_true] at hne
      have hstep := PromiseCache.getStep_of_fresh now s p hc hne.1
      have hne2 : PromiseCache.noExpiry maxAge (PromiseCache.getStep now s).2 rest = true :=
        hne.2
      rw [hstep] at hne2
      obtain ⟨hinv, hall⟩ := ih s p hc hne2
      constructor
      · show (PromiseCache.run maxAge (PromiseCache.getStep now s).2 rest).1.invocations =
          s.invocations
        rw [hstep]; exact hinv
      · intro q hq
        simp only [PromiseCache.run, hstep, List.mem_cons] at hq
        rcases hq with h | h
        · exact h
        · exact hall q h
    | completeOk t =>
      unfold PromiseCache.noExpiry at hne
      have hc2 : (PromiseCache.settleOk maxAge t s).1.cache = some p := hc
      obtain ⟨hinv, hall⟩ := ih (PromiseCache.settleOk maxAge t s).1 p hc2 hne
      exact ⟨hinv, hall⟩

theorem PromiseCache.run_empty (maxAge : Int) :
    ∀ (events : List PCEvent) (s : PCState),
      s.cache = none → PromiseCache.noExpiry maxAge s events = true →
      (PromiseCache.run maxAge s events).1.invocations ≤ s.invocations + 1 ∧
      ∀ q ∈ (PromiseCache.run maxAge s events).2, q = s.nextId := by
  intro events
  induction events with
  | nil => intro s _ _; exact ⟨Nat.le_succ _, by simp [PromiseCache.run]⟩
  | cons ev rest ih =>
    intro s hc hne
    cases ev with
    | get now =>
      unfold PromiseCache.noExpiry at hne
      rw [Bool.and_eq_true] at hne
      have hmiss : PromiseCache.hitCheck now s = false := by
        unfold PromiseCache.hitCheck; simp [hc]
      have hstep : PromiseCache.getStep now s =
          (s.nextId,
            { s with
              cache := some s.nextId
              invocations := s.invocations + 1
              nextId := s.nextId + 1 }) := by
        unfold PromiseCache.getStep; rw [hmiss]; simp
      have hne2 := hne.2
      rw [hstep] at hne2
      obtain ⟨hinv, hall⟩ := PromiseCache.run_cached maxAge rest _ s.nextId rfl hne2
      constructor
      · show (PromiseCache.run maxAge (PromiseCache.getStep now s).2 rest).1.invocations ≤
          s.invocations + 1
        rw [hstep]; rw [hinv]
      · intro q hq
        simp only [PromiseCache.run, hstep, List.mem_cons] at hq
        rcases hq with h | h
        · exact h
        · exact hall q h
    | completeOk t =>
      unfold PromiseCache.noExpiry at hne
      have hc2 : (PromiseCache.settleOk maxAge t s).1.cache = none := hc
      obtain ⟨hinv, hall⟩ := ih (PromiseCache.settleOk maxAge t s).1 hc2 hne
      exact ⟨hinv, hall⟩

/-- Claim C1: for every generator and every sequence of `PromiseCache.get`
calls with no intervening `clear()` and no expiry — every `get` happens while
the cached promise (if any) is still pending or before its stored expiration
time — every `get` call returns the same promise object and the generator is
invoked at most once across all those calls. -/
theorem promiseCache_dedup (maxAge : Int) (s : PCState) (events : List PCEvent)
    (h : PromiseCache.noExpiry maxAge s events = true) :
    (PromiseCache.run maxAge s events).1.invocations ≤ s.invocations + 1 ∧
    ∀ p ∈ (PromiseCache.run maxAge s events).2,
      ∀ q ∈ (PromiseCache.run maxAge s events).2, p = q := by
  rcases hc : s.cache with _ | p
  · obtain ⟨hinv, hall⟩ := PromiseCache.run_empty maxAge events s hc h
    refine ⟨hinv, ?_⟩
    intro p hp q hq
    rw [hall p hp, hall q hq]
  · obtain ⟨hinv, hall⟩ := PromiseCache.run_cached maxAge events s p hc h
    refine ⟨by rw [hinv]; exact Nat.le_succ _, ?_⟩
    intro a ha b hb
    rw [hall a ha, hall b hb]

/-- Witness for C1 at a concrete trace: two gets while pending, a successful
completion, and a get before expiry. -/
theorem promiseCache_dedup_witness :
    PromiseCache.noExpiry 100 PCState.initial
      [PCEvent.get 0, PCEvent.get 1, PCEvent.completeOk 50, PCEvent.get 60] = true ∧
    ((PromiseCache.run 100 PCState.initial
        [PCEvent.get 0, PCEvent.get 1, PCEvent.completeOk 50, PCEvent.get 60]).1.invocations ≤
        PCState.initial.invocations + 1 ∧
      ∀ p ∈ (PromiseCache.run 100 PCState.initial
        [PCEvent.get 0, PCEvent.get 1, PCEvent.completeOk 50, PCEvent.get 60]).2,
      ∀ q ∈ (PromiseCache.run 100 PCState.initial
        [PCEvent.get 0, PCEvent.get 1, PCEvent.completeOk 50, PCEvent.get 60]).2, p = q) :=
  ⟨by decide, promiseCache_dedup 100 PCState.initial
    [PCEvent.get 0, PCEvent.get 1, PCEvent.completeOk 50, PCEvent.get 60] (by decide)⟩

/-- Claim C2: when the generator's promise rejects with error `e`, the wrapped
generation rejects with that very error object (not wrapped), the internal
cache and expiration time are cleared to `null` by the same synchronous step
that produces the rejection (so the clear is visible before any awaiter runs),
and an immediately following `get` with a new generator invokes that generator
(it returns a fresh promise and bumps the invocation count). -/
theorem promiseCache_error_clears {ε α : Type} (maxAge t now : Int) (s : PCState) (e : ε) :
    (PromiseCache.generationResult maxAge t s (Except.error e : Except ε α)).2 =
      Except.error e ∧
    (PromiseCache.generationResult maxAge t s (Except.error e : Except ε α)).1.cache = none ∧
    (PromiseCache.generationResult maxAge t s
      (Except.error e : Except ε α)).1.expirationTime = none ∧
    (PromiseCache.getStep now
      (PromiseCache.generationResult maxAge t s (Except.error e : Except ε α)).1).1 =
      s.nextId ∧
    (PromiseCache.getStep now
      (PromiseCache.generationResult maxAge t s
        (Except.error e : Except ε α)).1).2.invocations = s.invocations + 1 := by
  refine ⟨rfl, rfl, rfl, ?_, ?_⟩ <;>
    simp [PromiseCache.generationResult, PromiseCache.clearState, PromiseCache.getStep,
      PromiseCache.hitCheck]

/-- Claim C5: a successful generation completing at time `t` sets
`expirationTime` to `t + maxAge` and schedules a clear (for maxAge ≥ 0 exactly
`maxAge` after completion; negative delays are clamped to zero).  Once that
scheduled clear has fired — which has happened before any task running
strictly after the deadline — a `get` invokes the generator again; and even
before the timer fires, a `get` issued after the expiration time regenerates
through the guard alone (whenever the stored expiration time is a truthy
number).  With `maxAge ≤ 0` the deadline is the completion time itself, so
every later (non-concurrent) `get` regenerates. -/
theorem promiseCache_expiry (maxAge t now : Int) (s : PCState) :
    (PromiseCache.settleOk maxAge t s).1.expirationTime = some (t + maxAge) ∧
    (maxAge ≥ 0 → (PromiseCache.settleOk maxAge t s).2 = t + maxAge) ∧
    (maxAge ≤ 0 → (PromiseCache.settleOk maxAge t s).2 = t) ∧
    (now > (PromiseCache.settleOk maxAge t s).2 →
      (PromiseCache.getStep now
        (PromiseCache.clearState (PromiseCache.settleOk maxAge t s).1)).2.invocations =
        s.invocations + 1 ∧
      (PromiseCache.getStep now
        (PromiseCache.clearState (PromiseCache.settleOk maxAge t s).1)).1 = s.nextId) ∧
    (now > t + maxAge → ¬t + maxAge = 0 →
      (PromiseCache.getStep now (PromiseCache.settleOk maxAge t s).1).2.invocations =
        s.invocations + 1) := by
  refine ⟨rfl, ?_, ?_, ?_, ?_⟩
  · intro h
    simp [PromiseCache.settleOk, max_eq_left h]
  · intro h
    simp [PromiseCache.settleOk, max_eq_right h]
  · intro _
    constructor <;>
      simp [PromiseCache.settleOk, PromiseCache.clearState, PromiseCache.getStep,
        PromiseCache.hitCheck]
  · intro hgt h0
    have hlt : ¬now < t + maxAge := by omega
    simp [PromiseCache.settleOk, PromiseCache.getStep, PromiseCache.hitCheck,
      expTimeFalsy, h0, hlt]

/-- Witness for C5 at maxAge = 0, completion at t = 5, get at now = 6. -/
theorem promiseCache_expiry_witness :
    (PromiseCache.settleOk 0 5 PCState.initial).1.expirationTime = some (5 + 0) ∧
    (PromiseCache.settleOk 0 5 PCState.initial).2 = 5 ∧
    (PromiseCache.getStep 6
      (PromiseCache.clearState (PromiseCache.settleOk 0 5 PCState.initial).1)).2.invocations =
      PCState.initial.invocations + 1 ∧
    (PromiseCache.getStep 6
      (PromiseCache.clearState (PromiseCache.settleOk 0 5 PCState.initial).1)).1 =
      PCState.initial.nextId ∧
    (PromiseCache.getStep 6 (PromiseCache.settleOk 0 5 PCState.initial).1).2.invocations =
      PCState.initial.invocations + 1 := by
  obtain ⟨h1, _, h3, h4, h5⟩ := promiseCache_expiry 0 5 6 PCState.initial
  obtain ⟨h4a, h4b⟩ := h4 (by decide)
  exact ⟨h1, h3 (by decide), h4a, h4b, h5 (by decide) (by decide)⟩

/-! ## JSON values (the JS values handled by `JSON.stringify` / `JSON.parse`)

`Json` models the JSON-serializable JS values; `JSVal` additionally has the
`undefined` value, which a data function may resolve to.  Numbers are
modelled as integers (the values the claims exercise are exact). -/

inductive Json where
  | null
  | bool (b : Bool)
  | num (n : Int)
  | str (s : String)
  | arr (elems : List Json)
  | obj (fields : List (String × Json))
deriving Repr

inductive JSVal where
  | undef
  | val (j : Json)
deriving Repr

def Char.lbrace : Char := Char.ofNat 123

def Char.rbrace : Char := Char.ofNat 125

/-- `JSON.stringify` quoting of one character of a string. -/
def jsonEscapeChar (c : Char) : String :=
  if c = '"' then "\\\""
  else if c = '\\' then "\\\\"
  else if c = '\n' then "\\n"
  else if c = '\t' then "\\t"
  else if c = '\r' then "\\r"
  else String.singleton c

def jsonQuote (s : String) : String :=
  "\"" ++ String.join (s.toList.map jsonEscapeChar) ++ "\""

mutual

/-- `JSON.stringify` on JSON-serializable values. -/
def stringifyJson : Json → String
  | Json.null => "null"
  | Json.bool true => "true"
  | Json.bool false => "false"
  | Json.num n => toString n
  | Json.str s => jsonQuote s
  | Json.arr xs => "[" ++ stringifyArr xs ++ "]"
  | Json.obj fs => String.singleton Char.lbrace ++ stringifyObj fs ++ String.singleton Char.rbrace

def stringifyArr : List Json → String
  | [] => ""
  | [x] => stringifyJson x
  | x :: y :: rest => stringifyJson x ++ "," ++ stringifyArr (y :: rest)

def stringifyObj : List (String × Json) → String
  | [] => ""
  | [(k, v)] => jsonQuote k ++ ":" ++ stringifyJson v
  | (k, v) :: f :: rest =>
      jsonQuote k ++ ":" ++ stringifyJson v ++ "," ++ stringifyObj (f :: rest)

end

/-- Whitespace skipping for the `JSON.parse` model. -/
def skipWs : List Char → List Char
  | [] => []
  | c :: rest =>
      if c = ' ' ∨ c = '\n' ∨ c = '\t' ∨ c = '\r' then skipWs rest else c :: rest

/-- Parse the remainder of a JSON string literal (after the opening quote). -/
def parseStringChars : Nat → List Char → Option (String × List Char)
  | 0, _ => none
  | _, [] => none
  | fuel + 1, c :: rest =>
      if c = '"' then some ("", rest)
      else if c = '\\' then
        match rest with
        | [] => none
        | e :: rest2 =>
            let dec : Option Char :=
              if e = '"' then some '"'
              else if e = '\\' then some '\\'
              else if e = 'n' then some '\n'
              else if e = 't' then some '\t'
              else if e = 'r' then some '\r'
              else none
            match dec with
            | none => none
            | some d =>
                match parseStringChars fuel rest2 with
                | some (s, r) => some (String.singleton d ++ s, r)
                | none => none
      else
        match parseStringChars fuel rest with
        | some (s, r) => some (String.singleton c ++ s, r)
        | none => none

def takeDigits : List Char → List Char × List Char
  | [] => ([], [])
  | c :: rest =>
      if c.isDigit then
        let p := takeDigits rest
        (c :: p.1, p.2)
      else ([], c :: rest)

def digitsToNat (ds : List Char) : Nat :=
  ds.foldl (fun acc c => acc * 10 + (c.toNat - 48)) 0

mutual

/-- Recursive-descent model of `JSON.parse` on one value (fuelled). -/
def parseVal : Nat → List Char → Option (Json × List Char)
  | 0, _ => none
  | fuel + 1, input =>
      match skipWs input with
      | [] => none
      | c :: rest =>
          if c = 'n' then
            match rest with
            | 'u' :: 'l' :: 'l' :: r => some (Json.null, r)
            | _ => none
          else if c = 't' then
            match rest with
            | 'r' :: 'u' :: 'e' :: r => some (Json.bool true, r)
            | _ => none
          else if c = 'f' then
            match rest with
            | 'a' :: 'l' :: 's' :: 'e' :: r => some (Json.bool false, r)
            | _ => none
          else if c = '"' then
            match parseStringChars fuel rest with
            | some (s, r) => some (Json.str s, r)
            | none => none
          else if c = '-' then
            match takeDigits rest with
            | ([], _) => none
            | (ds, r) => some (Json.num (-(digitsToNat ds : Int)), r)
          else if c.isDigit then
            let p := takeDigits (c :: rest)
            some (Json.num (digitsToNat p.1), p.2)
          else if c = '[' then
            match skipWs rest with
            | ']' :: r => some (Json.arr [], r)
            | other => match parseArrItems fuel other with
              | some (vs, r) => some (Json.arr vs, r)
              | none => none
          else if c = Char.lbrace then
            match skipWs rest with
            | d :: r =>
                if d = Char.rbrace then some (Json.obj [], r)
                else match parseObjItems fuel (d :: r) with
                  | some (fs, r2) => some (Json.obj fs, r2)
                  | none => none
            | [] => none
          else none

def parseArrItems : Nat → List Char → Option (List Json × List Char)
  | 0, _ => none
  | fuel + 1, input =>
      match parseVal fuel input with
      | none => none
      | some (v, r) =>
          match skipWs r with
          | ',' :: r2 =>
              match parseArrItems fuel r2 with
              | some (vs, r3) => some (v :: vs, r3)
              | none => none
          | ']' :: r2 => some ([v], r2)
          | _ => none

def parseObjItems : Nat → List Char → Option (List (String × Json) × List Char)
  | 0, _ => none
  | fuel + 1, input =>
      match skipWs input with
      | '"' :: rest =>
          match parseStringChars fuel rest with
          | none => none
          | some (k, r) =>
              match skipWs r with
              | ':' :: r2 =>
                  match parseVal fuel r2 with
                  | none => none
                  | some (v, r3) =>
                      match skipWs r3 with
                      | ',' :: r4 =>
                          match parseObjItems fuel r4 with
                          | some (fs, r5) => some ((k, v) :: fs, r5)
                          | none => none
                      | d :: r4 =>
                          if d = Char.rbrace then some ([(k, v)], r4) else none
                      | [] => none
              | _ => none
      | _ => none

end

/-- Model of `JSON.parse`: parse one value and require full consumption. -/
def parseJson (s : String) : Option Json :=
  match parseVal (s.toList.length + 1) s.toList with
  | some (v, rest) => if skipWs rest = [] then some v else none
  | none => none

/-! ## Redis client wrapper (vendor/cache/src/redis-client.ts)

The Redis store is modelled as an association list from full keys to entries;
an entry carries the raw stored string and its per-entry expiration (`none`
models a key stored with no expiry).  `redisGet` models `client.get`. -/

def MS_IN_SECOND : Int := 1000

def MS_IN_MINUTE : Int := 60 * MS_IN_SECOND

/-- Model of `reconnectStrategy` (redis-client.ts lines 16–29): an error value
models giving up, an integer the retry delay in milliseconds. -/
def reconnectStrategy (retries : Int) : Except String Int :=
  if retries > 5 then Except.error "Max retries reached"
  else Except.ok (min (retries * MS_IN_SECOND) (MS_IN_SECOND * 30))

structure RedisEntry where
  value : String
  expiration : Option Int
deriving Repr, DecidableEq

abbrev RedisStore := List (String × RedisEntry)

def redisGet (store : RedisStore) (key : String) : Option String :=
  (List.lookup key store).map RedisEntry.value

/-- Model of `redisSetKv` (redis-client.ts lines 33–45):
`client.set(key, JSON.stringify(value), condition NX, expiration EX ttl)`.
The `NX` condition makes the write happen only when the key is absent;
Redis returns `"OK"` when it wrote and `null` when the condition failed. -/
def redisSetKv (store : RedisStore) (key : String) (value : Json) (ttlInSeconds : Int) :
    RedisStore × Option String :=
  match List.lookup key store with
  | some _ => (store, none)
  | none =>
      ((key, { value := stringifyJson value, expiration := some ttlInSeconds }) :: store,
        some "OK")

/-- The miss branch of `withRedis` (redis-client.ts lines 98–108): invoke the
resolver; a `null`/`undefined` result is returned as `null` without touching
the store; otherwise the result is stored under the full key and returned.
The final component counts resolver invocations. -/
def withRedisMiss (store : RedisStore) (fullKey : String) (f : Unit → JSVal)
    (ttlInSeconds : Int) : RedisStore × Except String JSVal × Nat :=
  match f () with
  | JSVal.undef => (store, Except.ok (JSVal.val Json.null), 1)
  | JSVal.val Json.null => (store, Except.ok (JSVal.val Json.null), 1)
  | JSVal.val j => ((redisSetKv store fullKey j ttlInSeconds).1, Except.ok (JSVal.val j), 1)

/-- Model of `withRedis` (redis-client.ts lines 73–109).  The callback is
either a static value (the `typeof callback !== 'function'` branch) or a lazy
resolver.  A `Sum.inl` static value is stored via `redisSetKv` and returned;
a `Sum.inr` resolver first consults the store (`if (cached)` is JS truthiness
of the fetched string: present and nonempty), parsing a hit with `JSON.parse`
(a parse failure is a thrown error, modelled by `Except.error`). -/
def withRedis (store : RedisStore) (pre key : String)
    (callback : Json ⊕ (Unit → JSVal)) (ttlInSeconds : Int) :
    RedisStore × Except String JSVal × Nat :=
  let fullKey := pre ++ ":" ++ key
  match callback with
  | Sum.inl data =>
      ((redisSetKv store fullKey data ttlInSeconds).1, Except.ok (JSVal.val data), 0)
  | Sum.inr f =>
      match redisGet store fullKey with
      | some cached =>
          if cached ≠ "" then
            match parseJson cached with
            | some j => (store, Except.ok (JSVal.val j), 0)
            | none => (store, Except.error "SyntaxError", 0)
          else withRedisMiss store fullKey f ttlInSeconds
      | none => withRedisMiss store fullKey f ttlInSeconds

/-- Model of `RedisCacheManager` (redis-client.ts lines 111–142); `pre` is the
source's `prefix` field. -/
structure RedisCacheManager where
  pre : String
  callback : String → JSVal
  ttlInSeconds : Int := MS_IN_MINUTE * 5

def RedisCacheManager.get (m : RedisCacheManager) (store : RedisStore) (key : String) :
    RedisStore × Except String JSVal × Nat :=
  withRedis store m.pre key (Sum.inr (fun _ => m.callback key)) m.ttlInSeconds

def RedisCacheManager.set (m : RedisCacheManager) (store : RedisStore) (key : String)
    (value : Json) (ttlInSeconds : Int) : RedisStore × Except String JSVal × Nat :=
  withRedis store m.pre key (Sum.inl value) ttlInSeconds

theorem withRedis_hit (store : RedisStore) (pre key : String) (f : Unit → JSVal)
    (ttl : Int) (s : String) (j : Json)
    (hhit : redisGet store (pre ++ ":" ++ key) = some s) (hne : s ≠ "")
    (hparse : parseJson s = some j) :
    withRedis store pre key (Sum.inr f) ttl = (store, Except.ok (JSVal.val j), 0) := by
  unfold withRedis
  dsimp only
  rw [hhit]
  simp [hne, hparse]

theorem withRedisMiss_stores (store : RedisStore) (fullKey : String) (g : Unit → JSVal)
    (ttl : Int) (j2 : Json) (hlook : List.lookup fullKey store = none)
    (hg : g () = JSVal.val j2) (hj2 : ¬j2 = Json.null) :
    withRedisMiss store fullKey g ttl =
      ((fullKey, { value := stringifyJson j2, expiration := some ttl }) :: store,
        Except.ok (JSVal.val j2), 1) := by
  unfold withRedisMiss
  rw [hg]
  cases j2 with
  | null => exact absurd rfl hj2
  | bool b => simp [redisSetKv, hlook]
  | num n => simp [redisSetKv, hlook]
  | str s => simp [redisSetKv, hlook]
  | arr xs => simp [redisSetKv, hlook]
  | obj fs => simp [redisSetKv, hlook]

theorem redisGet_none_lookup (store : RedisStore) (k : String)
    (h : redisGet store k = none) : List.lookup k store = none := by
  unfold redisGet at h
  exact Option.map_eq_none'.mp h

/-- Claim C3 counterexample: a data function resolving to `undefined` does not
get its sentinel back as-is — `withRedis` returns `null` instead. -/
theorem withRedis_undefined_not_as_is :
    (withRedis [] "p" "k" (Sum.inr fun _ => JSVal.undef) 60).2.1 =
      Except.ok (JSVal.val Json.null) ∧
    (withRedis [] "p" "k" (Sum.inr fun _ => JSVal.undef) 60).2.1 ≠
      Except.ok JSVal.undef := by
  refine ⟨rfl, ?_⟩
  intro h
  rw [show (withRedis [] "p" "k" (Sum.inr fun _ => JSVal.undef) 60).2.1 =
    Except.ok (JSVal.val Json.null) from rfl] at h
  injection h with h2
  injection h2

/-- Claim C3 (amended): if the data function resolves to `null` or
`undefined`, the cache-aside read writes nothing to the store and returns
`null` to the caller without raising an error (`null` passes through as-is;
`undefined` is normalized to `null`); no store tier is populated with a
cached sentinel. -/
theorem withRedis_null_passthrough (store : RedisStore) (pre key : String)
    (f : Unit → JSVal) (ttl : Int)
    (hmiss : redisGet store (pre ++ ":" ++ key) = none)
    (h : f () = JSVal.undef ∨ f () = JSVal.val Json.null) :
    withRedis store pre key (Sum.inr f) ttl = (store, Except.ok (JSVal.val Json.null), 1) := by
  unfold withRedis
  dsimp only
  rw [hmiss]
  unfold withRedisMiss
  rcases h with h | h <;> rw [h]

/-- Witness for the amended C3 at a concrete input. -/
theorem withRedis_null_passthrough_witness :
    withRedis [] "p" "k" (Sum.inr fun _ => JSVal.val Json.null) 60 =
      ([], Except.ok (JSVal.val Json.null), 1) :=
  withRedis_null_passthrough [] "p" "k" (fun _ => JSVal.val Json.null) 60 rfl (Or.inr rfl)

/-- Claim C4 (code-bug evidence): because `redisSetKv` passes `condition NX`,
`RedisCacheManager.set` on a key that already holds `"old"` leaves the store
unchanged — a read still observes `"old"`, not the new value. -/
theorem redisCacheManager_set_nx_skips_existing :
    (RedisCacheManager.set
        { pre := "p", callback := fun _ => JSVal.undef, ttlInSeconds := 60 }
        [("p:k", { value := "\"old\"", expiration := some 60 })] "k" (Json.str "new") 60).1 =
      [("p:k", { value := "\"old\"", expiration := some 60 })] ∧
    redisGet (RedisCacheManager.set
        { pre := "p", callback := fun _ => JSVal.undef, ttlInSeconds := 60 }
        [("p:k", { value := "\"old\"", expiration := some 60 })] "k" (Json.str "new") 60).1
      "p:k" = some "\"old\"" ∧
    ¬("\"old\"" = stringifyJson (Json.str "new")) := by
  refine ⟨rfl, rfl, by decide⟩

/-- Claim C6: the cache-aside read returns the cached (parsed) value without
invoking the callback when the key holds a cached serialization, and on a
miss invokes the callback exactly once, stores its non-null result under the
prefixed key with the given TTL, and returns that result. -/
theorem withRedis_cache_aside (store store2 : RedisStore) (pre key : String)
    (f g : Unit → JSVal) (ttl : Int) (s : String) (j j2 : Json)
    (hhit : redisGet store (pre ++ ":" ++ key) = some s) (hne : s ≠ "")
    (hparse : parseJson s = some j)
    (hmiss : redisGet store2 (pre ++ ":" ++ key) = none)
    (hg : g () = JSVal.val j2) (hj2 : ¬j2 = Json.null) :
    withRedis store pre key (Sum.inr f) ttl = (store, Except.ok (JSVal.val j), 0) ∧
    withRedis store2 pre key (Sum.inr g) ttl =
      ((pre ++ ":" ++ key, { value := stringifyJson j2, expiration := some ttl }) :: store2,
        Except.ok (JSVal.val j2), 1) := by
  refine ⟨withRedis_hit store pre key f ttl s j hhit hne hparse, ?_⟩
  unfold withRedis
  dsimp only
  rw [hmiss]
  exact withRedisMiss_stores store2 (pre ++ ":" ++ key) g ttl j2
    (redisGet_none_lookup store2 (pre ++ ":" ++ key) hmiss) hg hj2

/-- Witness for C6: a hit on a store caching `5`, and a miss on an empty
store with a callback producing `7`. -/
theorem withRedis_cache_aside_witness :
    withRedis [("p:k", { value := "5", expiration := some 60 })] "p" "k"
        (Sum.inr fun _ => JSVal.val (Json.num 9)) 60 =
      ([("p:k", { value := "5", expiration := some 60 })],
        Except.ok (JSVal.val (Json.num 5)), 0) ∧
    withRedis [] "p" "k" (Sum.inr fun _ => JSVal.val (Json.num 7)) 60 =
      ([("p:k", { value := stringifyJson (Json.num 7), expiration := some 60 })],
        Except.ok (JSVal.val (Json.num 7)), 1) :=
  withRedis_cache_aside [("p:k", { value := "5", expiration := some 60 })] [] "p" "k"
    (fun _ => JSVal.val (Json.num 9)) (fun _ => JSVal.val (Json.num 7)) 60 "5"
    (Json.num 5) (Json.num 7) rfl (by decide) rfl rfl rfl (by intro h; injection h)

/-- Claim C7 (code-bug evidence): the reconnection strategy gives up past 5
retries, but the delays it returns before that grow linearly
(1000, 2000, 3000 ms — not a geometric progression), contradicting the
"exponential backoff" description in the spec and in the code's own comment. -/
theorem reconnectStrategy_linear_backoff :
    reconnectStrategy 1 = Except.ok 1000 ∧
    reconnectStrategy 2 = Except.ok 2000 ∧
    reconnectStrategy 3 = Except.ok 3000 ∧
    reconnectStrategy 6 = Except.error "Max retries reached" ∧
    ¬((2000 : Int) * 2000 = 1000 * 3000) := by
  refine ⟨rfl, rfl, rfl, rfl, by decide⟩

/-- Claim C9: every write performed through `redisSetKv` stores the entry
with a per-entry expiration equal to the `ttlInSeconds` argument, so no entry
it stores lacks an expiry, and `RedisCacheManager`'s default `ttlInSeconds`
is `MS_IN_MINUTE * 5 = 300000`. -/
theorem redisSetKv_always_expiry (store : RedisStore) (key : String) (v : Json)
    (ttl : Int) (p : String) (cb : String → JSVal) :
    (List.lookup key store = none →
      (redisSetKv store key v ttl).1 =
        (key, { value := stringifyJson v, expiration := some ttl }) :: store) ∧
    (∀ k e, (k, e) ∈ (redisSetKv store key v ttl).1 →
      (k, e) ∈ store ∨ e.expiration = some ttl) ∧
    ({ pre := p, callback := cb } : RedisCacheManager).ttlInSeconds = 300000 ∧
    MS_IN_MINUTE * 5 = 300000 := by
  refine ⟨?_, ?_, rfl, rfl⟩
  · intro h
    unfold redisSetKv
    rw [h]
  · intro k e hmem
    unfold redisSetKv at hmem
    cases hl : List.lookup key store with
    | some _ => rw [hl] at hmem; exact Or.inl hmem
    | none =>
        rw [hl] at hmem
        rcases List.mem_cons.mp hmem with h | h
        · simp only [Prod.mk.injEq] at h
          exact Or.inr (by rw [h.2])
        · exact Or.inl h

/-- Witness for C9 at a concrete write into an empty store. -/
theorem redisSetKv_always_expiry_witness :
    (redisSetKv [] "k" Json.null 60).1 =
      ("k", { value := stringifyJson Json.null, expiration := some 60 }) ::
        ([] : RedisStore) ∧
    (∀ k e, (k, e) ∈ (redisSetKv ([] : RedisStore) "k" Json.null 60).1 →
      (k, e) ∈ ([] : RedisStore) ∨ e.expiration = some 60) ∧
    ({ pre := "p", callback := fun _ => JSVal.undef } : RedisCacheManager).ttlInSeconds =
      300000 ∧
    MS_IN_MINUTE * 5 = 300000 :=
  ⟨(redisSetKv_always_expiry [] "k" Json.null 60 "p" (fun _ => JSVal.undef)).1 rfl,
    (redisSetKv_always_expiry [] "k" Json.null 60 "p" (fun _ => JSVal.undef)).2.1,
    (redisSetKv_always_expiry [] "k" Json.null 60 "p" (fun _ => JSVal.undef)).2.2.1,
    (redisSetKv_always_expiry [] "k" Json.null 60 "p" (fun _ => JSVal.undef)).2.2.2⟩

/-- Claim C10: a value `j` stored on a miss and read back on a later hit for
the same key comes back as `JSON.parse(JSON.stringify(j))` — structural
equality through the serialization, not reference identity — and the hit
does not invoke the callback. -/
theorem withRedis_json_roundtrip (store : RedisStore) (pre key : String)
    (f g : Unit → JSVal) (ttl ttl2 : Int) (j w : Json)
    (hmiss : redisGet store (pre ++ ":" ++ key) = none)
    (hf : f () = JSVal.val j) (hj : ¬j = Json.null)
    (hparse : parseJson (stringifyJson j) = some w) :
    (withRedis (withRedis store pre key (Sum.inr f) ttl).1 pre key (Sum.inr g) ttl2).2.1 =
      Except.ok (JSVal.val w) ∧
    (withRedis (withRedis store pre key (Sum.inr f) ttl).1 pre key (Sum.inr g) ttl2).2.2 =
      0 := by
  have hlook := redisGet_none_lookup store (pre ++ ":" ++ key) hmiss
  have hfst : (withRedis store pre key (Sum.inr f) ttl).1 =
      (pre ++ ":" ++ key, { value := stringifyJson j, expiration := some ttl }) :: store := by
    unfold withRedis
    dsimp only
    rw [hmiss]
    rw [withRedisMiss_stores store (pre ++ ":" ++ key) f ttl j hlook hf hj]
  have hsne : stringifyJson j ≠ "" := by
    intro h
    rw [h] at hparse
    rw [show parseJson "" = none from rfl] at hparse
    exact Option.noConfusion hparse
  have hget2 : redisGet
      ((pre ++ ":" ++ key, { value := stringifyJson j, expiration := some ttl }) :: store)
      (pre ++ ":" ++ key) = some (stringifyJson j) := by
    simp [redisGet, List.lookup]
  have hsecond := withRedis_hit
    ((pre ++ ":" ++ key, { value := stringifyJson j, expiration := some ttl }) :: store)
    pre key g ttl2 (stringifyJson j) w hget2 hsne hparse
  rw [hfst, hsecond]
  exact ⟨rfl, rfl⟩

/-- Witness for C10: store `42`, read it back. -/
theorem withRedis_json_roundtrip_witness :
    (withRedis (withRedis [] "p" "k" (Sum.inr fun _ => JSVal.val (Json.num 42)) 60).1 "p" "k"
        (Sum.inr fun _ => JSVal.val (Json.num 9)) 60).2.1 =
      Except.ok (JSVal.val (Json.num 42)) ∧
    (withRedis (withRedis [] "p" "k" (Sum.inr fun _ => JSVal.val (Json.num 42)) 60).1 "p" "k"
        (Sum.inr fun _ => JSVal.val (Json.num 9)) 60).2.2 = 0 :=
  withRedis_json_roundtrip [] "p" "k" (fun _ => JSVal.val (Json.num 42))
    (fun _ => JSVal.val (Json.num 9)) 60 60 (Json.num 42) (Json.num 42) rfl rfl
    (by intro h; injection h) rfl

/-! ## Concurrency utilities (vendor/common/src/utils/runtime.ts)

Tasks are pure thunks returning `Except` (a resolved or rejected promise).
The worker pool pulls tasks in increasing index order and stores each result
at its task's index, so on this deterministic model the pool is equivalent to
processing the list in order; `concurrency` only gates the up-front check. -/

def executeWithConcurrency {α : Type} (tasks : List (Unit → Except String α))
    (concurrency : Int) : Except String (List α) :=
  if concurrency ≤ 0 then Except.error "Concurrency must be greater than 0"
  else if tasks.isEmpty then Except.ok []
  else tasks.mapM (fun t => t ())

structure BatchProcessOptions where
  concurrency : Int := 5
  stopOnError : Bool := false
deriving Repr, DecidableEq

structure BatchResult (α : Type) where
  results : List α
  errors : List (Nat × String)
  total : Nat
  successful : Nat
  failed : Nat
deriving Repr, DecidableEq

/-- The worker loop of `batchProcess` (runtime.ts lines 313–346), sequential
model: successful results in task order, errors recorded with their index,
`stopOnError` abandons the remaining tasks after the first error. -/
def batchProcessGo {α : Type} (stopOnError : Bool) :
    Nat → List (Unit → Except String α) → List α × List (Nat × String)
  | _, [] => ([], [])
  | idx, t :: rest =>
      match t () with
      | Except.ok v =>
          let p := batchProcessGo stopOnError (idx + 1) rest
          (v :: p.1, p.2)
      | Except.error e =>
          if stopOnError then ([], [(idx, e)])
          else
            let p := batchProcessGo stopOnError (idx + 1) rest
            (p.1, (idx, e) :: p.2)

/-- Model of `batchProcess` (runtime.ts lines 280–360); the timeout, delay and
progress callbacks are runtime-level effects with no bearing on the computed
result and are omitted. -/
def batchProcess {α : Type} (tasks : List (Unit → Except String α))
    (options : BatchProcessOptions) : Except String (BatchResult α) :=
  if options.concurrency ≤ 0 then Except.error "Concurrency must be greater than 0"
  else if tasks.isEmpty then
    Except.ok { results := [], errors := [], total := 0, successful := 0, failed := 0 }
  else
    let p := batchProcessGo options.stopOnError 0 tasks
    Except.ok
      { results := p.1
        errors := p.2
        total := tasks.length
        successful := tasks.length - p.2.length
        failed := p.2.length }

/-! ## Random utilities (vendor/common/src/utils/random.ts)

`rand i` supplies the `i`-th draw of `Math.random` already mapped to a
natural number; `randomInt(0, len - 1)` realizes an arbitrary index below
`len`, modelled as `rand i % len`. -/

structure RandomStringOptions where
  useNumeric : Option Bool := none
  useLowercase : Option Bool := none
  useUppercase : Option Bool := none
deriving Repr, DecidableEq

/-- `resolveCharactersFromOptions` (random.ts lines 68–84): default to all
character classes when none of the three options is specified. -/
def resolveCharactersFromOptions (options : RandomStringOptions) : String :=
  let hasAnyOption := options.useUppercase.isSome || options.useLowercase.isSome ||
    options.useNumeric.isSome
  (if options.useUppercase.getD (!hasAnyOption) then "ABCDEFGHIJKLMNOPQRSTUVWXYZ" else "") ++
    (if options.useLowercase.getD (!hasAnyOption) then "abcdefghijklmnopqrstuvwxyz" else "") ++
    (if options.useNumeric.getD (!hasAnyOption) then "0123456789" else "")

/-- The `characters` argument of `randomString`: a string, an options object,
or omitted (`undefined`, which resolves via an empty options object). -/
def resolveCharacters : Option (String ⊕ RandomStringOptions) → String
  | some (Sum.inl s) => s
  | some (Sum.inr o) => resolveCharactersFromOptions o
  | none => resolveCharactersFromOptions {}

/-- Model of `randomString` (random.ts lines 64–102). -/
def randomString (rand : Nat → Nat) (length : Int)
    (characters : Option (String ⊕ RandomStringOptions)) : Except String String :=
  let resolved := resolveCharacters characters
  if resolved.length = 0 ∧ length > 0 then
    Except.error "Character set cannot be empty"
  else if length ≤ 0 then Except.ok ""
  else
    Except.ok (String.mk ((List.range length.toNat).map
      (fun i => resolved.toList.getD (rand i % resolved.length) 'A')))

/-- Claim C8 counterexample: `randomString` with requested length 0 and an
empty character set returns the empty string — it does not throw. -/
theorem randomString_len_zero_no_error :
    randomString (fun _ => 0) 0 (some (Sum.inl "")) = Except.ok "" ∧
    randomString (fun _ => 0) 0 (some (Sum.inl "")) ≠
      Except.error "Character set cannot be empty" := by
  refine ⟨rfl, ?_⟩
  intro h
  rw [show randomString (fun _ => 0) 0 (some (Sum.inl "")) = Except.ok "" from rfl] at h
  injection h

/-- Claim C8 (amended): configuration errors fail fast with a descriptive
error at call time: any concurrency ≤ 0 makes `executeWithConcurrency` and
`batchProcess` fail with "Concurrency must be greater than 0" before running
any task (the error is independent of the task list), and for every requested
length > 0, `randomString` with an empty resolved character set throws
"Character set cannot be empty" (a length ≤ 0 returns the empty string
without consulting the character set). -/
theorem config_errors_fail_fast {α : Type} (tasks : List (Unit → Except String α))
    (c : Int) (opts : BatchProcessOptions) (rand : Nat → Nat) (len : Int)
    (chars : Option (String ⊕ RandomStringOptions))
    (hc : c ≤ 0) (hoc : opts.concurrency ≤ 0) (hchars : resolveCharacters chars = "") :
    executeWithConcurrency tasks c = Except.error "Concurrency must be greater than 0" ∧
    batchProcess tasks opts = Except.error "Concurrency must be greater than 0" ∧
    (len > 0 → randomString rand len chars = Except.error "Character set cannot be empty") ∧
    (len ≤ 0 → randomString rand len chars = Except.ok "") := by
  refine ⟨?_, ?_, ?_, ?_⟩
  · unfold executeWithConcurrency
    rw [if_pos hc]
  · unfold batchProcess
    rw [if_pos hoc]
  · intro hl
    unfold randomString
    dsimp only
    rw [hchars]
    rw [if_pos ⟨by simp, hl⟩]
  · intro hl
    unfold randomString
    dsimp only
    rw [hchars]
    rw [if_neg (fun hcc => absurd hcc.2 (by omega)), if_pos hl]

/-- Witness for the amended C8 at concrete inputs. -/
theorem config_errors_fail_fast_witness :
    executeWithConcurrency ([] : List (Unit → Except String Nat)) 0 =
      Except.error "Concurrency must be greater than 0" ∧
    batchProcess ([] : List (Unit → Except String Nat))
        { concurrency := 0, stopOnError := false } =
      Except.error "Concurrency must be greater than 0" ∧
    randomString (fun _ => 0) 1 (some (Sum.inl "")) =
      Except.error "Character set cannot be empty" := by
  obtain ⟨h1, h2, h3, _⟩ := config_errors_fail_fast ([] : List (Unit → Except String Nat)) 0
    { concurrency := 0, stopOnError := false } (fun _ => 0) 1 (some (Sum.inl ""))
    (by decide) (by decide) rfl
  exact ⟨h1, h2, h3 (by decide)⟩
